/-
Verification of the core components of the market-research assistant
repository: the market-regime classifier (app/core/analyzers/regime.py),
the rolling-window rate limiter (app/core/services/rate_limit.py), and the
retrieval-fusion pipeline (app/core/services/retrievers.py).

Python floats are modelled as rationals (ℚ), Python ints as Int/Nat,
`None`-able values as Option, and raisable code as Except (an
`Except.error` marks a raised exception, carrying the missing dictionary
key for KeyError).  Dictionaries whose key sets matter are modelled as
association lists in insertion order.
-/
import Mathlib

/-! ### Market-regime classifier: numeric helpers (regime.py) -/

/-- `pct_change(a, b)` from regime.py: percentage change from `b` to `a`;
`None` when either input is missing or `b == 0`. -/
def pct_change (a b : Option ℚ) : Option ℚ :=
  match a, b with
  | none, _ => none
  | _, none => none
  | some a, some b => if b = 0 then none else some ((a - b) / b * 100)

/-- `bp_change(a, b)` from regime.py: basis-point change `(a - b) * 100`;
`None` exactly when either input is missing (no zero guard). -/
def bp_change (a b : Option ℚ) : Option ℚ :=
  match a, b with
  | none, _ => none
  | _, none => none
  | some a, some b => some ((a - b) * 100)

/-! ### Market-regime classifier: configuration model -/

/-- Lookup in a Python dict modelled as an association list; a missing key
raises `KeyError(key)`, modelled as `Except.error key`. -/
def dictGet {α : Type} : List (String × α) → String → Except String α
  | [], key => .error key
  | (k, v) :: rest, key => if k = key then .ok v else dictGet rest key

/-- Retrieve a top-level group of the config dict (`cfg["labels"]` etc.);
an absent group raises `KeyError(key)`. -/
def groupGet {α : Type} (o : Option α) (key : String) : Except String α :=
  match o with
  | some x => .ok x
  | none => .error key

/-- The shape of the regime-rules config as read by `classify_regime`:
three top-level groups, each possibly missing; `labels` maps label keys to
display strings, `thresholds` and `tie_breakers` map rule names to flat
dicts of numeric cutoffs. -/
structure RegimeCfg where
  labels : Option (List (String × String))
  thresholds : Option (List (String × List (String × ℚ)))
  tie_breakers : Option (List (String × List (String × ℚ)))

/-- The value returned by `classify_regime`: a dict with exactly the four
keys `regime`, `usd_context`, `yields`, `note`. -/
structure RegimeResult where
  regime : String
  usd_context : String
  yields : String
  note : String
deriving DecidableEq, Repr

/-- `classify_regime` from regime.py, translated statement by statement.
The three top-level groups are read up front (lines 115-117); every dict
subscript is an Except-bind so that a missing key raises exactly where the
source would, and Python's short-circuit `and` is preserved (the second
operand's subscripts are only evaluated when the first operand is true). -/
def classify_regime (spx_pct vix_pct dxy_pct ust10y_bp : Option ℚ)
    (cfg : RegimeCfg) : Except String RegimeResult := do
  let labels ← groupGet cfg.labels "labels"
  let th ← groupGet cfg.thresholds "thresholds"
  let tb ← groupGet cfg.tie_breakers "tie_breakers"
  match spx_pct, vix_pct with
  | none, _ => do
    let ro ← dictGet labels "risk_off"
    pure ⟨ro, "n/a", "n/a", "Insufficient signals to confirm risk-on."⟩
  | some _, none => do
    let ro ← dictGet labels "risk_off"
    pure ⟨ro, "n/a", "n/a", "Insufficient signals to confirm risk-on."⟩
  | some spx, some vix => do
    let ron ← dictGet th "risk_on"
    let spx_min ← dictGet ron "spx_pct_min"
    let risk_on ←
      if spx ≥ spx_min then do
        let vix_max ← dictGet ron "vix_pct_max"
        pure (decide (vix ≤ vix_max))
      else
        pure false
    if risk_on then do
      let firm ← dictGet labels "usd_firm"
      let usd_context ←
        match dxy_pct with
        | none => pure firm
        | some dxy => do
          let us ← dictGet th "usd_soft"
          let dxy_max ← dictGet us "dxy_pct_max"
          if dxy ≤ dxy_max then dictGet labels "usd_soft" else dictGet labels "usd_firm"
      let mixed ← dictGet labels "yields_mixed"
      let yields_label ←
        match ust10y_bp with
        | none => pure mixed
        | some ust => do
          let yr ← dictGet th "yields_rising"
          let ust_min ← dictGet yr "ust10y_bp_min"
          if ust ≥ ust_min then dictGet labels "yields_rising" else dictGet labels "yields_mixed"
      let usd_context2 ←
        match dxy_pct with
        | none => pure usd_context
        | some dxy => do
          let usx ← dictGet tb "us_exceptionalism"
          let tb_spx_min ← dictGet usx "spx_min"
          if spx ≥ tb_spx_min then do
            let tb_dxy_min ← dictGet usx "dxy_min"
            if dxy ≥ tb_dxy_min then dictGet labels "usd_usx" else pure usd_context
          else
            pure usd_context
      let ron_label ← dictGet labels "risk_on"
      pure ⟨ron_label, usd_context2, yields_label,
        "Falling VIX and rising stocks confirm risk-on; USD/yields provide sector bias context."⟩
    else do
      let ro ← dictGet labels "risk_off"
      pure ⟨ro, "n/a", "n/a", "Stocks/VIX not confirming risk appetite."⟩

/-- A fully-populated regime config: one field per label string and
numeric cutoff that `classify_regime` can ever read. -/
structure CfgData where
  risk_on_l : String
  risk_off_l : String
  usd_firm_l : String
  usd_soft_l : String
  usd_usx_l : String
  yields_rising_l : String
  yields_mixed_l : String
  spx_pct_min : ℚ
  vix_pct_max : ℚ
  dxy_pct_max : ℚ
  ust10y_bp_min : ℚ
  tb_spx_min : ℚ
  tb_dxy_min : ℚ

/-- Build the association-list config corresponding to a fully-populated
`CfgData` (the shape of knowledge_base/configs/regime_rules.json). -/
def CfgData.toCfg (c : CfgData) : RegimeCfg :=
  ⟨some [("risk_on", c.risk_on_l), ("risk_off", c.risk_off_l),
         ("usd_firm", c.usd_firm_l), ("usd_soft", c.usd_soft_l),
         ("usd_usx", c.usd_usx_l), ("yields_rising", c.yields_rising_l),
         ("yields_mixed", c.yields_mixed_l)],
   some [("risk_on", [("spx_pct_min", c.spx_pct_min), ("vix_pct_max", c.vix_pct_max)]),
         ("usd_soft", [("dxy_pct_max", c.dxy_pct_max)]),
         ("yields_rising", [("ust10y_bp_min", c.ust10y_bp_min)])],
   some [("us_exceptionalism", [("spx_min", c.tb_spx_min), ("dxy_min", c.tb_dxy_min)])]⟩

/-- Pure description of `classify_regime` on a fully-populated config. -/
def classify_total (spx_pct vix_pct dxy_pct ust10y_bp : Option ℚ) (c : CfgData) :
    RegimeResult :=
  match spx_pct, vix_pct with
  | some spx, some vix =>
    if spx ≥ c.spx_pct_min ∧ vix ≤ c.vix_pct_max then
      let usd0 := match dxy_pct with
        | none => c.usd_firm_l
        | some dxy => if dxy ≤ c.dxy_pct_max then c.usd_soft_l else c.usd_firm_l
      let yl := match ust10y_bp with
        | none => c.yields_mixed_l
        | some ust => if ust ≥ c.ust10y_bp_min then c.yields_rising_l else c.yields_mixed_l
      let usd := match dxy_pct with
        | none => usd0
        | some dxy =>
          if spx ≥ c.tb_spx_min ∧ dxy ≥ c.tb_dxy_min then c.usd_usx_l else usd0
      ⟨c.risk_on_l, usd, yl,
        "Falling VIX and rising stocks confirm risk-on; USD/yields provide sector bias context."⟩
    else
      ⟨c.risk_off_l, "n/a", "n/a", "Stocks/VIX not confirming risk appetite."⟩
  | _, _ => ⟨c.risk_off_l, "n/a", "n/a", "Insufficient signals to confirm risk-on."⟩

/-! ### Rolling-window rate limiter (rate_limit.py) -/

/-- RateLimiter state: the configured per-minute budget (a Python int) and
the deque of monotonic-clock timestamps of admitted operations. -/
structure RateLimiter where
  max_ops : Int
  events : List ℚ
deriving DecidableEq, Repr

/-- `RateLimiter.__init__` from rate_limit.py.  The constructor body only
assigns the two fields and contains no validation or raise statement, so
its exception-typed embedding never errs for any argument. -/
def RateLimiter.initE (max_ops_per_min : Int) : Except String RateLimiter :=
  .ok ⟨max_ops_per_min, []⟩

/-- The `while self.events and now - self.events[0] > 60` popleft loop of
`allow`: repeatedly drop the front timestamp while it is more than 60
seconds old. -/
def trimOld (now : ℚ) : List ℚ → List ℚ
  | [] => []
  | e :: es => if now - e > 60 then trimOld now es else e :: es

/-- `RateLimiter.allow` from rate_limit.py, with the monotonic-clock read
made an explicit argument `now`: trim expired timestamps from the front,
then admit (recording `now`) iff fewer than `max_ops` remain. -/
def RateLimiter.allow (rl : RateLimiter) (now : ℚ) : Bool × RateLimiter :=
  let evs := trimOld now rl.events
  if (evs.length : Int) < rl.max_ops then (true, ⟨rl.max_ops, evs ++ [now]⟩)
  else (false, ⟨rl.max_ops, evs⟩)

/-- Run a sequence of `allow()` calls at the given clock readings,
collecting the returned booleans and the final limiter state. -/
def runAllows (rl : RateLimiter) : List ℚ → List Bool × RateLimiter
  | [] => ([], rl)
  | t :: ts =>
    let r := rl.allow t
    let rest := runAllows r.2 ts
    (r.1 :: rest.1, rest.2)

/-! ### Retrieval fusion (retrievers.py) -/

/-- A LangChain document as seen by retrievers.py: its page content plus
the two metadata entries the code reads (`source` and `start_index`),
each possibly absent from the metadata dict. -/
structure Document where
  source : Option String
  start_index : Option Int
  page_content : String
deriving DecidableEq, Repr

/-- `_stable_doc_id` from retrievers.py.  `sha256hex` stands for the
external `hashlib.sha256(...).hexdigest()` function (a fixed pure
function of its input bytes).  `metadata.get("source", "")` and
`metadata.get("start_index", "")` default to the empty string, and the
branch condition is `if source:` — source truthy, i.e. non-empty. -/
def stable_doc_id (sha256hex : String → String) (doc : Document) : String :=
  let source := doc.source.getD ""
  let start := (doc.start_index.map toString).getD ""
  if source ≠ "" then source ++ ":" ++ start
  else "hash:" ++ sha256hex (doc.page_content.take 256)

/-- The identity rule as the spec words it (for comparison with the code):
`source + ":" + start_offset` when BOTH metadata fields are present, else
the content-hash fallback. -/
def stable_doc_id_claim (sha256hex : String → String) (doc : Document) : String :=
  match doc.source, doc.start_index with
  | some s, some st => s ++ ":" ++ toString st
  | _, _ => "hash:" ++ sha256hex (doc.page_content.take 256)

/-- One table entry of the RRF merge: document id, accumulated score,
first-encountered document.  The source keeps two dicts `scores` and
`best_doc`; they are keyed identically and written together, so they are
fused into one insertion-ordered association list. -/
abbrev RRFEntry := (String × ℚ × Document)

/-- The RRF score contribution of 1-based rank `rank`: `1.0 / (K0 + rank)`
with `K0 = 60`. -/
def rrfContrib (rank : Nat) : ℚ := 1 / (60 + (rank : ℚ))

/-- Process one `(did, contribution, doc)` visit of the inner loop of
`_rrf_merge`: add the contribution to the id's accumulated score (keeping
its position and first-seen document) or append a fresh entry. -/
def rrfInsert : List RRFEntry → String → ℚ → Document → List RRFEntry
  | [], did, c, d => [(did, c, d)]
  | (key, s, d0) :: rest, did, c, d =>
    if key = did then (key, s + c, d0) :: rest
    else (key, s, d0) :: rrfInsert rest did c d

/-- `enumerate(·, start=r)`: pair each document with its rank counting
from `r`. -/
def rankFrom (r : Nat) : List Document → List (Nat × Document)
  | [] => []
  | d :: ds => (r, d) :: rankFrom (r + 1) ds

/-- Uncurried `rrfInsert`, the loop body applied to one visit. -/
def insertEvent (acc : List RRFEntry) (e : RRFEntry) : List RRFEntry :=
  rrfInsert acc e.1 e.2.1 e.2.2

/-- The sequence of `(did, contribution, doc)` visits the inner loop of
`_rrf_merge` makes for one result list: the documents of `docs[:kpl]`
paired with `_stable_doc_id` and the rank contribution `1/(60+rank)`. -/
def listEvents (sha256hex : String → String) (kpl : Nat) (docs : List Document) :
    List RRFEntry :=
  (rankFrom 1 (docs.take kpl)).map
    (fun p => (stable_doc_id sha256hex p.2, rrfContrib p.1, p.2))

/-- The inner `for rank, doc in enumerate(docs[:k_per_list], start=1)` loop
of `_rrf_merge`, updating the accumulator table. -/
def rrfStep (sha256hex : String → String) (kpl : Nat) (acc : List RRFEntry)
    (docs : List Document) : List RRFEntry :=
  (listEvents sha256hex kpl docs).foldl insertEvent acc

/-- The fully-accumulated `scores`/`best_doc` table of `_rrf_merge` after
the outer `for docs in results_by_query` loop. -/
def rrfTable (sha256hex : String → String) (results : List (List Document)) (kpl : Nat) :
    List RRFEntry :=
  results.foldl (rrfStep sha256hex kpl) []

/-- `_rrf_merge` from retrievers.py: accumulate the table, sort ids by
accumulated score descending (Python's stable `sorted` with
`reverse=True`, modelled by the stable `mergeSort`), truncate to `k` and
return the first-seen documents. -/
def rrf_merge (sha256hex : String → String) (results : List (List Document))
    (k kpl : Nat) : List Document :=
  (((rrfTable sha256hex results kpl).mergeSort
      (fun a b => decide (b.2.1 ≤ a.2.1))).take k).map (fun e => e.2.2)

/-- All visits of the double loop of `_rrf_merge`, flattened in iteration
order (lists in variant order, each truncated to `kpl`, ranks from 1). -/
def allEvents (sha256hex : String → String) (results : List (List Document)) (kpl : Nat) :
    List RRFEntry :=
  results.flatMap (listEvents sha256hex kpl)

/-- Lookup of an id in the accumulated table (score and first-seen doc). -/
def tlookup (t : List RRFEntry) (did : String) : Option (ℚ × Document) :=
  (t.find? (fun e => e.1 == did)).map (fun e => e.2)

/-- Sum of the score contributions carried by the visits with a given id. -/
def sumContribs (es : List RRFEntry) (did : String) : ℚ :=
  ((es.filter (fun e => e.1 == did)).map (fun e => e.2.1)).sum

/-- The document of the first visit with a given id, if any. -/
def firstIn (es : List RRFEntry) (did : String) : Option Document :=
  (es.find? (fun e => e.1 == did)).map (fun e => e.2.2)

/-- Specification-side accumulated RRF score of an identity: the sum of
`1/(60+rank)` over every occurrence of that identity in the (truncated)
result lists. -/
def accScore (sha256hex : String → String) (results : List (List Document)) (kpl : Nat)
    (did : String) : ℚ :=
  sumContribs (allEvents sha256hex results kpl) did

/-- Specification-side first-encountered document of an identity, in
variant order then rank order. -/
def firstDocFor (sha256hex : String → String) (results : List (List Document)) (kpl : Nat)
    (did : String) : Option Document :=
  firstIn (allEvents sha256hex results kpl) did

/-! ### Query-variant generation (retrievers.py) -/

/-- The whitespace characters stripped by Python's bare `str.strip()`
(newlines cannot appear inside a line after `splitlines`). -/
def pyWhitespace : List Char := [' ', '\t', '\n', '\r', '\x0b', '\x0c']

/-- The characters of the literal `" -â€¢\t"` passed to `line.strip` in
`generate_query_variants` (the source file stores the bullet `•` as the
mojibake bytes `â€¢`). -/
def bulletChars : List Char := [' ', '-', 'â', '€', '¢', '\t']

/-- Python's `str.strip(chars)`: drop characters of `cs` from both ends. -/
def pyStrip (cs : List Char) (s : String) : String :=
  String.mk (((s.toList.dropWhile (fun c => cs.contains c)).reverse.dropWhile
    (fun c => cs.contains c)).reverse)

/-- Split a character stream at newlines, accumulating the current line in
reverse (the recursion of `str.splitlines`). -/
def splitLinesAux : List Char → List Char → List String
  | cur, [] => [String.mk cur.reverse]
  | cur, ch :: rest =>
    if ch = '\n' then String.mk cur.reverse :: splitLinesAux [] rest
    else splitLinesAux (ch :: cur) rest

/-- `str.splitlines`, modelled as splitting on the newline character. -/
def splitLines (s : String) : List String :=
  splitLinesAux [] s.toList

/-- The list comprehension of `generate_query_variants`: keep the lines of
the response that are non-blank (`if line.strip()`), each stripped of
surrounding spaces/dashes/bullets/tabs. -/
def parseVariants (response : String) : List String :=
  (splitLines response).filterMap (fun line =>
    if pyStrip pyWhitespace line = "" then none else some (pyStrip bulletChars line))

/-- The dedup loop of `generate_query_variants`: keep the first occurrence
of each string, preserving order. -/
def dedupFrom (seen : List String) : List String → List String
  | [] => []
  | q :: qs => if seen.contains q then dedupFrom seen qs else q :: dedupFrom (q :: seen) qs

/-- `generate_query_variants` from retrievers.py.  `llmResponse` is the
result of `chain.invoke` on the external model: `.ok text` for a reply,
`.error e` for a raised exception.  The source wraps the call in no
try/except, so an exception propagates (first monadic bind). -/
def generate_query_variants (query : String) (llmResponse : Except String String) :
    Except String (List String) := do
  let response ← llmResponse
  let variants := parseVariants response
  pure (dedupFrom [] (query :: variants))

/-- `retrieve_rag_fusion` from retrievers.py: obtain the variants (an
exception from variant generation propagates — no try/except in the
source), run the retriever `retr` on each variant in order, and RRF-merge
the per-variant lists.  `retr` stands for the external FAISS retriever
(`retriever.invoke`). -/
def retrieve_rag_fusion (sha256hex : String → String) (retr : String → List Document)
    (llmResponse : Except String String) (query : String) (k kpq : Nat) :
    Except String (List Document) := do
  let variants ← generate_query_variants query llmResponse
  pure (rrf_merge sha256hex (variants.map retr) k kpq)

/-! ### Statements of the composite claims -/

/-- The C4 property of `RateLimiter.allow` at budget `m`, recorded events
`events` and clock reading `now`: the trim removes exactly the timestamps
strictly older than 60 seconds; the call admits (appending `now`) iff
fewer than `m` timestamps remain after the trim, and a rejected call
leaves the trimmed sequence unchanged; four calls within one second under
budget 3 give `[True, True, True, False]`; a fifth call 61 seconds in is
admitted again; budget 0 always rejects. -/
def RateLimiterAllowClaim (m : Int) (events : List ℚ) (now : ℚ) : Prop :=
  trimOld now events = events.filter (fun e => decide (now - e ≤ 60))
  ∧ (((RateLimiter.mk m events).allow now).1 = true ↔
      ((trimOld now events).length : Int) < m)
  ∧ (((RateLimiter.mk m events).allow now).1 = true →
      ((RateLimiter.mk m events).allow now).2.events = trimOld now events ++ [now])
  ∧ (((RateLimiter.mk m events).allow now).1 = false →
      ((RateLimiter.mk m events).allow now).2.events = trimOld now events)
  ∧ (runAllows (RateLimiter.mk 3 []) [0, 1/4, 1/2, 3/4]).1 = [true, true, true, false]
  ∧ ((runAllows (RateLimiter.mk 3 []) [0, 1/4, 1/2, 3/4]).2.allow 61).1 = true
  ∧ (∀ evs : List ℚ, ∀ t : ℚ, ((RateLimiter.mk 0 evs).allow t).1 = false)

/-- The risk-on entry condition of `classify_regime`: both mandatory
signals present, SPX change at or above the minimum and VIX change at or
below the maximum. -/
def riskOnCond (c : CfgData) (spx_pct vix_pct : Option ℚ) : Prop :=
  ∃ s v : ℚ, spx_pct = some s ∧ vix_pct = some v ∧
    s ≥ c.spx_pct_min ∧ v ≤ c.vix_pct_max

/-- The C1 property of `_rrf_merge`: the output holds at most `k`
documents; each output document is the first-encountered occurrence of
its stable identity; every table entry's accumulated score is the sum of
the `1/(60+rank)` contributions of that identity over the truncated
lists; the output is ordered by accumulated score, descending; and when
one identity occurs in two different (truncated) lists the output is
strictly shorter than the sum of the input list lengths. -/
def RRFMergeClaim (hsh : String → String) (results : List (List Document))
    (k kpl : Nat) : Prop :=
  (rrf_merge hsh results k kpl).length ≤ k
  ∧ (∀ d ∈ rrf_merge hsh results k kpl,
      firstDocFor hsh results kpl (stable_doc_id hsh d) = some d)
  ∧ (∀ e ∈ rrfTable hsh results kpl, e.2.1 = accScore hsh results kpl e.1)
  ∧ (rrf_merge hsh results k kpl).Pairwise (fun a b =>
      accScore hsh results kpl (stable_doc_id hsh b) ≤
        accScore hsh results kpl (stable_doc_id hsh a))
  ∧ ((∃ i : Fin results.length, ∃ j : Fin results.length, i ≠ j ∧
        ∃ d1 ∈ (results.get i).take kpl, ∃ d2 ∈ (results.get j).take kpl,
          stable_doc_id hsh d1 = stable_doc_id hsh d2) →
      (rrf_merge hsh results k kpl).length < (results.map List.length).sum)

/-! ### Helper lemmas -/

theorem ok_bind {ε α β : Type} (a : α) (f : α → Except ε β) :
    ((Except.ok a : Except ε α) >>= f) = f a := rfl

theorem error_bind {ε α β : Type} (e : ε) (f : α → Except ε β) :
    ((Except.error e : Except ε α) >>= f) = Except.error e := rfl

theorem pure_eq_ok {ε α : Type} (a : α) : (pure a : Except ε α) = Except.ok a := rfl

theorem classify_regime_toCfg (spx_pct vix_pct dxy_pct ust10y_bp : Option ℚ) (c : CfgData) :
    classify_regime spx_pct vix_pct dxy_pct ust10y_bp c.toCfg =
      .ok (classify_total spx_pct vix_pct dxy_pct ust10y_bp c) := by
  rcases spx_pct with _ | spx
  · rfl
  rcases vix_pct with _ | vix
  · rfl
  by_cases h1 : spx ≥ c.spx_pct_min <;> by_cases h2 : vix ≤ c.vix_pct_max <;>
    rcases dxy_pct with _ | dxy <;> rcases ust10y_bp with _ | ust <;>
    simp [classify_regime, classify_total, CfgData.toCfg, groupGet, dictGet,
      ok_bind, pure_eq_ok, h1, h2] <;>
    split_ifs <;> simp_all

/-! ### C7: pct_change / bp_change -/

/-- C7: `pct_change` returns `None` when `b == 0` or when either input is
`None` (and, being a total function into `Option`, never raises
`ZeroDivisionError`); otherwise it is `(a-b)/b*100`, so
`pct_change(110.0, 100.0) == 10.0`.  `bp_change` returns `None` exactly
when an input is `None` and otherwise is `(a-b)*100`, so
`bp_change(100.0, 98.5) == 150.0`. -/
theorem pct_bp_change_spec :
    (∀ a : Option ℚ, pct_change a (some 0) = none)
    ∧ (∀ a b : Option ℚ, pct_change a b = none ↔ a = none ∨ b = none ∨ b = some 0)
    ∧ (∀ a b : ℚ, b ≠ 0 → pct_change (some a) (some b) = some ((a - b) / b * 100))
    ∧ pct_change (some 110) (some 100) = some 10
    ∧ (∀ a b : Option ℚ, bp_change a b = none ↔ a = none ∨ b = none)
    ∧ (∀ a b : ℚ, bp_change (some a) (some b) = some ((a - b) * 100))
    ∧ bp_change (some 100) (some (197/2)) = some 150 := by
  refine ⟨?_, ?_, ?_, ?_, ?_, ?_, ?_⟩
  · intro a; cases a <;> simp [pct_change]
  · intro a b
    rcases a with _ | a <;> rcases b with _ | b <;> simp [pct_change]
  · intro a b hb; simp [pct_change, hb]
  · norm_num [pct_change]
  · intro a b; cases a <;> cases b <;> simp [bp_change]
  · intro a b; simp [bp_change]
  · norm_num [bp_change]

/-! ### C3: classify_regime with a missing mandatory signal -/

/-- C3: whenever `spx_pct` or `vix_pct` is `None`, and the config has its
three top-level groups with a `risk_off` label, `classify_regime` returns
the risk-off label with `usd_context = "n/a"`, `yields = "n/a"` and the
insufficient-signals note, regardless of `dxy_pct` and `ust10y_bp`, and
does not raise (the result is an `.ok`, never an `.error`). -/
theorem classify_regime_missing_inputs
    (L : List (String × String)) (T B : List (String × List (String × ℚ)))
    (ro : String) (hro : dictGet L "risk_off" = .ok ro)
    (spx vix dxy ust : Option ℚ) (h : spx = none ∨ vix = none) :
    classify_regime spx vix dxy ust ⟨some L, some T, some B⟩ =
      .ok ⟨ro, "n/a", "n/a", "Insufficient signals to confirm risk-on."⟩ := by
  rcases h with h | h
  · subst h
    simp [classify_regime, groupGet, ok_bind, pure_eq_ok, hro]
  · subst h
    rcases spx with _ | s
    · simp [classify_regime, groupGet, ok_bind, pure_eq_ok, hro]
    · simp [classify_regime, groupGet, ok_bind, pure_eq_ok, hro]

/-- Witness for C3 at a concrete config and inputs. -/
theorem classify_regime_missing_inputs_witness :
    classify_regime none (some 2) (some 3) (some 4)
      ⟨some [("risk_off", "Risk-Off")], some [], some []⟩ =
      .ok ⟨"Risk-Off", "n/a", "n/a", "Insufficient signals to confirm risk-on."⟩ :=
  classify_regime_missing_inputs [("risk_off", "Risk-Off")] [] [] "Risk-Off" rfl
    none (some 2) (some 3) (some 4) (Or.inl rfl)

/-! ### C4 / C9: RateLimiter -/

theorem trimOld_sorted (now : ℚ) (events : List ℚ)
    (hs : events.Pairwise (· ≤ ·)) :
    trimOld now events = events.filter (fun e => decide (now - e ≤ 60)) := by
  induction events with
  | nil => rfl
  | cons e es ih =>
    rcases List.pairwise_cons.mp hs with ⟨hhead, htail⟩
    by_cases hc : now - e > 60
    · rw [trimOld, if_pos hc, ih htail, List.filter_cons]
      have hne : ¬ (now - e ≤ 60) := not_le.mpr hc
      simp [hne]
    · rw [trimOld, if_neg hc, List.filter_cons]
      have h60 : (decide (now - e ≤ 60)) = true := decide_eq_true (not_lt.mp hc)
      rw [if_pos h60]
      congr 1
      symm
      apply List.filter_eq_self.mpr
      intro a ha
      have hea : e ≤ a := hhead a ha
      exact decide_eq_true (by linarith)

/-- C4: each `allow()` call first prefix-trims every recorded timestamp
strictly older than 60 seconds (with the oldest-first ordering invariant,
this removes exactly the stale entries), then admits and records `now`
iff fewer than `max_ops_per_min` timestamps remain, leaving the trimmed
sequence unchanged on rejection; with budget 3, four calls within one
second give `[True, True, True, False]` and a call 61 seconds after the
start is admitted again; with budget 0 every call is rejected. -/
theorem rate_limiter_allow_spec (m : Int) (events : List ℚ) (now : ℚ)
    (hs : events.Pairwise (· ≤ ·)) :
    RateLimiterAllowClaim m events now := by
  refine ⟨trimOld_sorted now events hs, ?_, ?_, ?_, ?_, ?_, ?_⟩
  · constructor
    · intro h
      by_contra hlt
      simp [RateLimiter.allow, hlt] at h
    · intro h
      simp [RateLimiter.allow, h]
  · intro h
    by_cases hlt : ((trimOld now events).length : Int) < m
    · simp [RateLimiter.allow, hlt]
    · simp [RateLimiter.allow, hlt] at h
  · intro h
    by_cases hlt : ((trimOld now events).length : Int) < m
    · simp [RateLimiter.allow, hlt] at h
    · simp [RateLimiter.allow, hlt]
  · norm_num [runAllows, RateLimiter.allow, trimOld]
  · norm_num [runAllows, RateLimiter.allow, trimOld]
  · intro evs t
    have hnn : ¬ ((trimOld t evs).length : Int) < 0 :=
      not_lt.mpr (Int.natCast_nonneg _)
    simp [RateLimiter.allow, hnn]

/-- Witness for C4 at budget 2, recorded events `[0, 30]`, clock 70. -/
theorem rate_limiter_allow_spec_witness :
    RateLimiterAllowClaim 2 [0, 30] 70 :=
  rate_limiter_allow_spec 2 [0, 30] 70 (by norm_num)

/-- C9 counterexample: constructing a `RateLimiter` with
`max_ops_per_min = -1` does not raise — the constructor body has no
validation, so the exception-typed constructor returns `.ok` (a usable
limiter state) rather than an error. -/
theorem rate_limiter_init_negative_counterexample :
    RateLimiter.initE (-1) = Except.ok (RateLimiter.mk (-1) []) := rfl

/-- C9 amended: constructing with a negative `max_ops_per_min` succeeds
silently (no raise), and the resulting limiter rejects every subsequent
`allow()` call, behaving like a zero budget. -/
theorem rate_limiter_init_negative_rejects (m : Int) (hm : m < 0) :
    RateLimiter.initE m = Except.ok (RateLimiter.mk m [])
    ∧ (∀ evs : List ℚ, ∀ t : ℚ, ((RateLimiter.mk m evs).allow t).1 = false) := by
  refine ⟨rfl, fun evs t => ?_⟩
  have hnn : ¬ ((trimOld t evs).length : Int) < m :=
    not_lt.mpr ((le_of_lt hm).trans (Int.natCast_nonneg _))
  simp [RateLimiter.allow, hnn]

/-- Witness for the amended C9 at `max_ops_per_min = -1`. -/
theorem rate_limiter_init_negative_rejects_witness :
    RateLimiter.initE (-1) = Except.ok (RateLimiter.mk (-1) [])
    ∧ (∀ evs : List ℚ, ∀ t : ℚ, ((RateLimiter.mk (-1) evs).allow t).1 = false) :=
  rate_limiter_init_negative_rejects (-1) (by norm_num)

/-! ### C5: missing config keys -/

/-- C5 counterexample: the nested required key `thresholds.risk_on` is
missing (the `thresholds` group is present but empty), yet for the input
`spx_pct = None` `classify_regime` returns normally instead of raising —
the nested keys are only read on the classification paths that need
them, so the claim's "raises for every input combination whenever any
required threshold key is missing" fails. -/
theorem classify_regime_missing_key_counterexample :
    classify_regime none (some 1) (some (1/2)) (some 5)
      ⟨some [("risk_off", "RO")], some [], some []⟩ =
      .ok ⟨"RO", "n/a", "n/a", "Insufficient signals to confirm risk-on."⟩ := rfl

/-- C5 amended: a missing top-level group (`labels`, `thresholds`,
`tie_breakers`) makes `classify_regime` raise for every input, because
the three groups are subscripted unconditionally before any branch; a
nested rule key such as `thresholds.risk_on` makes it raise exactly on
the paths that read it — in particular whenever both `spx_pct` and
`vix_pct` are present. -/
theorem classify_regime_missing_config_raises
    (spx vix dxy ust : Option ℚ) (L : List (String × String))
    (T B : List (String × List (String × ℚ))) :
    (∀ o1 o2, classify_regime spx vix dxy ust ⟨none, o1, o2⟩ = .error "labels")
    ∧ classify_regime spx vix dxy ust ⟨some L, none, some B⟩ = .error "thresholds"
    ∧ classify_regime spx vix dxy ust ⟨some L, some T, none⟩ = .error "tie_breakers"
    ∧ (∀ s v : ℚ, dictGet T "risk_on" = .error "risk_on" →
        classify_regime (some s) (some v) dxy ust ⟨some L, some T, some B⟩ =
          .error "risk_on") := by
  refine ⟨fun o1 o2 => rfl, rfl, rfl, fun s v hT => ?_⟩
  simp [classify_regime, groupGet, ok_bind, error_bind, hT]

/-- Witness for the amended C5: an empty `thresholds` group raises
`KeyError("risk_on")` when both mandatory signals are present. -/
theorem classify_regime_missing_config_raises_witness :
    classify_regime (some 1) (some (-1)) none none
      ⟨some [("risk_off", "RO")], some [], some []⟩ = .error "risk_on" :=
  (classify_regime_missing_config_raises (some 1) (some (-1)) none none
    [("risk_off", "RO")] [] []).2.2.2 1 (-1) rfl

/-! ### C8: USD-exceptionalism tie-break override -/

/-- C8: when the risk-on condition holds and `dxy_pct` is present with
`spx_pct` and `dxy_pct` at or above the `us_exceptionalism` tie-breaker
cutoffs, the returned `usd_context` is the `usd_usx` label, overriding
whatever the USD-context step chose, for every `ust10y_bp`. -/
theorem classify_regime_usx_override (c : CfgData) (spx vix dxy : ℚ) (ust : Option ℚ)
    (h1 : spx ≥ c.spx_pct_min) (h2 : vix ≤ c.vix_pct_max)
    (h3 : spx ≥ c.tb_spx_min) (h4 : dxy ≥ c.tb_dxy_min) :
    ∃ res : RegimeResult,
      classify_regime (some spx) (some vix) (some dxy) ust c.toCfg = .ok res
      ∧ res.usd_context = c.usd_usx_l ∧ res.regime = c.risk_on_l := by
  refine ⟨classify_total (some spx) (some vix) (some dxy) ust c,
    classify_regime_toCfg _ _ _ _ c, ?_, ?_⟩ <;>
    simp [classify_total, h1, h2, h3, h4]

/-- Witness for C8 at a concrete config and inputs. -/
theorem classify_regime_usx_override_witness :
    ∃ res : RegimeResult,
      classify_regime (some 2) (some (-3)) (some 1) (some 12)
        (CfgData.mk "risk_on" "risk_off" "usd_firm" "usd_soft" "usd_usx"
          "yields_rising" "yields_mixed" (1/2) 0 (-3/10) 10 1 (1/2)).toCfg = .ok res
      ∧ res.usd_context = "usd_usx" ∧ res.regime = "risk_on" :=
  classify_regime_usx_override
    (CfgData.mk "risk_on" "risk_off" "usd_firm" "usd_soft" "usd_usx"
      "yields_rising" "yields_mixed" (1/2) 0 (-3/10) 10 1 (1/2))
    2 (-3) 1 (some 12) (by norm_num) (by norm_num) (by norm_num) (by norm_num)

/-! ### C10: label invariants of the classification result -/

/-- C10: on a fully-populated config whose USD/yield labels are not the
literal `"n/a"`, the `"n/a"` values occur exactly on the two early-return
risk-off branches: when the risk-on condition fails (or a mandatory
signal is missing) the result is the risk-off label with
`usd_context = yields = "n/a"`; when it holds, the regime is the risk-on
label, `usd_context` is one of the `usd_firm`/`usd_soft`/`usd_usx`
labels, `yields` is one of the `yields_rising`/`yields_mixed` labels, and
neither is `"n/a"`.  The result, a `RegimeResult`, always carries exactly
the four fields `regime`, `usd_context`, `yields`, `note`. -/
theorem classify_regime_label_invariant (c : CfgData) (spx vix dxy ust : Option ℚ)
    (hfirm : c.usd_firm_l ≠ "n/a") (hsoft : c.usd_soft_l ≠ "n/a")
    (husx : c.usd_usx_l ≠ "n/a") (hyr : c.yields_rising_l ≠ "n/a")
    (hym : c.yields_mixed_l ≠ "n/a") :
    ∃ res : RegimeResult,
      classify_regime spx vix dxy ust c.toCfg = .ok res
      ∧ (¬ riskOnCond c spx vix →
          res.regime = c.risk_off_l ∧ res.usd_context = "n/a" ∧ res.yields = "n/a")
      ∧ (riskOnCond c spx vix →
          res.regime = c.risk_on_l
          ∧ (res.usd_context = c.usd_firm_l ∨ res.usd_context = c.usd_soft_l ∨
              res.usd_context = c.usd_usx_l)
          ∧ (res.yields = c.yields_rising_l ∨ res.yields = c.yields_mixed_l)
          ∧ res.usd_context ≠ "n/a" ∧ res.yields ≠ "n/a") := by
  refine ⟨classify_total spx vix dxy ust c, classify_regime_toCfg _ _ _ _ c, ?_, ?_⟩
  · intro hno
    rcases spx with _ | s
    · simp [classify_total]
    rcases vix with _ | v
    · simp [classify_total]
    have hcond : ¬ (s ≥ c.spx_pct_min ∧ v ≤ c.vix_pct_max) := by
      intro ⟨hs, hv⟩
      exact hno ⟨s, v, rfl, rfl, hs, hv⟩
    simp [classify_total, hcond]
  · rintro ⟨s, v, rfl, rfl, hs, hv⟩
    have hcond : s ≥ c.spx_pct_min ∧ v ≤ c.vix_pct_max := ⟨hs, hv⟩
    rcases dxy with _ | d
    · rcases ust with _ | u
      · simp [classify_total, hcond, hfirm, hym]
      · by_cases hu : u ≥ c.ust10y_bp_min <;>
          simp [classify_total, hcond, hu, hfirm, hyr, hym]
    · by_cases htb : s ≥ c.tb_spx_min ∧ d ≥ c.tb_dxy_min <;>
        by_cases hd : d ≤ c.dxy_pct_max <;>
        rcases ust with _ | u <;>
        first
        | (by_cases hu : u ≥ c.ust10y_bp_min <;>
            simp [classify_total, hcond, htb, hd, hu, hfirm, hsoft, husx, hyr, hym])
        | simp [classify_total, hcond, htb, hd, hfirm, hsoft, husx, hyr, hym]

/-- Witness for C10 at a concrete config (all cutoffs 0) and inputs
`spx = 1, vix = -2` (risk-on holds), `dxy`/`ust` absent. -/
theorem classify_regime_label_invariant_witness :
    ∃ res : RegimeResult,
      classify_regime (some 1) (some (-2)) none none
        (CfgData.mk "risk_on" "risk_off" "usd_firm" "usd_soft" "usd_usx"
          "yields_rising" "yields_mixed" 0 0 0 0 0 0).toCfg = .ok res
      ∧ (¬ riskOnCond (CfgData.mk "risk_on" "risk_off" "usd_firm" "usd_soft" "usd_usx"
            "yields_rising" "yields_mixed" 0 0 0 0 0 0) (some 1) (some (-2)) →
          res.regime = "risk_off" ∧ res.usd_context = "n/a" ∧ res.yields = "n/a")
      ∧ (riskOnCond (CfgData.mk "risk_on" "risk_off" "usd_firm" "usd_soft" "usd_usx"
            "yields_rising" "yields_mixed" 0 0 0 0 0 0) (some 1) (some (-2)) →
          res.regime = "risk_on"
          ∧ (res.usd_context = "usd_firm" ∨ res.usd_context = "usd_soft" ∨
              res.usd_context = "usd_usx")
          ∧ (res.yields = "yields_rising" ∨ res.yields = "yields_mixed")
          ∧ res.usd_context ≠ "n/a" ∧ res.yields ≠ "n/a") :=
  classify_regime_label_invariant
    (CfgData.mk "risk_on" "risk_off" "usd_firm" "usd_soft" "usd_usx"
      "yields_rising" "yields_mixed" 0 0 0 0 0 0)
    (some 1) (some (-2)) none none
    (by decide) (by decide) (by decide) (by decide) (by decide)

/-! ### C6: stable document identity -/

set_option maxRecDepth 8192

/-- C6 counterexample: a document whose metadata has `source` but no
`start_index`.  The code takes the `source:start` branch (with the start
offset defaulting to the empty string), while the claim's "both present,
else hash" rule prescribes the content-hash fallback, so the two
disagree. -/
theorem stable_doc_id_counterexample :
    stable_doc_id (fun s => s) (Document.mk (some "a.txt") none "hello") = "a.txt:"
    ∧ stable_doc_id_claim (fun s => s) (Document.mk (some "a.txt") none "hello") =
        "hash:hello"
    ∧ stable_doc_id (fun s => s) (Document.mk (some "a.txt") none "hello") ≠
        stable_doc_id_claim (fun s => s) (Document.mk (some "a.txt") none "hello") := by
  refine ⟨?_, ?_, ?_⟩ <;> simp [stable_doc_id, stable_doc_id_claim] <;> decide

/-- C6 amended: the identity is `source ++ ":" ++ start` whenever the
`source` metadata field is present and non-empty — the start offset is
not required and defaults to `""` — and is the `hash:`-prefixed digest of
the first 256 characters of the content exactly when `source` is absent
or empty; the function is deterministic (equal metadata and content give
equal ids, for any fixed digest function). -/
theorem stable_doc_id_spec (hsh : String → String) (d d' : Document) :
    (∀ s : String, d.source = some s → s ≠ "" →
      stable_doc_id hsh d = s ++ ":" ++ ((d.start_index.map toString).getD ""))
    ∧ (d.source.getD "" = "" →
      stable_doc_id hsh d = "hash:" ++ hsh (d.page_content.take 256))
    ∧ (d.source = d'.source → d.start_index = d'.start_index →
      d.page_content = d'.page_content → stable_doc_id hsh d = stable_doc_id hsh d') := by
  refine ⟨?_, ?_, ?_⟩
  · intro s hs hne
    simp [stable_doc_id, hs, hne]
  · intro hs
    simp [stable_doc_id, hs]
  · intro h1 h2 h3
    simp [stable_doc_id, h1, h2, h3]

/-- Witness for the amended C6: both branches and determinism at concrete
documents. -/
theorem stable_doc_id_spec_witness :
    stable_doc_id (fun s => s) (Document.mk (some "b.txt") (some 7) "doc") =
      "b.txt" ++ ":" ++ (((Document.mk (some "b.txt") (some 7) "doc").start_index.map
        toString).getD "")
    ∧ stable_doc_id (fun s => s) (Document.mk none (some 7) "doc") =
        "hash:" ++ (fun s => s) ((Document.mk none (some 7) "doc").page_content.take 256) :=
  ⟨(stable_doc_id_spec (fun s => s) (Document.mk (some "b.txt") (some 7) "doc")
      (Document.mk (some "b.txt") (some 7) "doc")).1 "b.txt" rfl (by decide),
   (stable_doc_id_spec (fun s => s) (Document.mk none (some 7) "doc")
      (Document.mk none (some 7) "doc")).2.1 (by decide)⟩

/-! ### C2: variant-generation failure handling -/

/-- C2 counterexample: when the model call raises, `generate_query_variants`
does not degrade to `[query]` — the exception propagates out (there is no
try/except around `chain.invoke`), so the result is the error, not
`.ok ["q"]`. -/
theorem generate_query_variants_counterexample :
    generate_query_variants "q" (Except.error "boom") = Except.error "boom"
    ∧ generate_query_variants "q" (Except.error "boom") ≠ Except.ok ["q"] :=
  ⟨rfl, fun h => nomatch h⟩

/-- C2 amended: when the model call returns but nothing is parseable
(every line blank), `generate_query_variants` returns exactly `[query]`;
but when the model call raises, the exception propagates out of
`generate_query_variants`, and `retrieve_rag_fusion` propagates it
further instead of degrading to the single original query. -/
theorem generate_query_variants_degrades (query response : String)
    (hblank : ∀ line ∈ splitLines response, pyStrip pyWhitespace line = "") :
    generate_query_variants query (.ok response) = .ok [query]
    ∧ (∀ e : String, generate_query_variants query (.error e) = .error e)
    ∧ (∀ (hsh : String → String) (retr : String → List Document) (k kpq : Nat)
        (e : String),
        retrieve_rag_fusion hsh retr (.error e) query k kpq = .error e) := by
  refine ⟨?_, fun e => rfl, fun hsh retr k kpq e => rfl⟩
  have hpv : parseVariants response = [] := by
    rw [parseVariants, List.filterMap_eq_nil_iff]
    intro line hline
    simp [hblank line hline]
  simp [generate_query_variants, ok_bind, pure_eq_ok, hpv, dedupFrom]

/-- Witness for the amended C2 with an empty model response. -/
theorem generate_query_variants_degrades_witness :
    generate_query_variants "q" (.ok "") = .ok ["q"]
    ∧ (∀ e : String, generate_query_variants "q" (.error e) = .error e)
    ∧ (∀ (hsh : String → String) (retr : String → List Document) (k kpq : Nat)
        (e : String),
        retrieve_rag_fusion hsh retr (.error e) "q" k kpq = .error e) :=
  generate_query_variants_degrades "q" "" (by
    intro line hline
    have hmem : line ∈ [""] := hline
    simp at hmem
    subst hmem
    rfl)

/-! ### C1: lemmas about the RRF accumulation table -/

theorem sumContribs_nil (did : String) : sumContribs [] did = 0 := rfl

theorem sumContribs_cons (e : RRFEntry) (es : List RRFEntry) (did : String) :
    sumContribs (e :: es) did =
      (if e.1 = did then e.2.1 else 0) + sumContribs es did := by
  by_cases h : e.1 = did <;> simp [sumContribs, List.filter_cons, h]

theorem firstIn_cons (e : RRFEntry) (es : List RRFEntry) (did : String) :
    firstIn (e :: es) did = if e.1 = did then some e.2.2 else firstIn es did := by
  by_cases h : e.1 = did <;> simp [firstIn, List.find?_cons, h]

theorem tlookup_nil (q : String) : tlookup [] q = none := rfl

theorem tlookup_cons (a : RRFEntry) (t : List RRFEntry) (q : String) :
    tlookup (a :: t) q = if a.1 = q then some a.2 else tlookup t q := by
  by_cases h : a.1 = q <;> simp [tlookup, List.find?_cons, h]

theorem tlookup_rrfInsert (acc : List RRFEntry) (did : String) (c : ℚ) (d : Document)
    (q : String) :
    tlookup (rrfInsert acc did c d) q =
      if q = did then
        (match tlookup acc did with
         | some sd => some (sd.1 + c, sd.2)
         | none => some (c, d))
      else tlookup acc q := by
  induction acc with
  | nil =>
    by_cases h : q = did <;> simp [rrfInsert, tlookup_cons, tlookup_nil, h]
    exact fun hh => absurd hh.symm h
  | cons a rest ih =>
    obtain ⟨k, s, d0⟩ := a
    by_cases h1 : k = did
    · subst h1
      by_cases h2 : q = k <;>
        simp [rrfInsert, tlookup_cons, h2, Ne.symm]
    · by_cases h2 : q = k
      · subst h2
        have hqd : ¬ q = did := h1
        simp [rrfInsert, h1, tlookup_cons, hqd]
      · simp [rrfInsert, h1, tlookup_cons, Ne.symm, h2, ih]

theorem tlookup_foldl (es : List RRFEntry) (acc : List RRFEntry) (did : String) :
    tlookup (es.foldl insertEvent acc) did =
      match tlookup acc did with
      | some sd => some (sd.1 + sumContribs es did, sd.2)
      | none => (firstIn es did).map (fun d => (sumContribs es did, d)) := by
  induction es generalizing acc with
  | nil =>
    cases h : tlookup acc did with
    | none => simp [h, firstIn]
    | some sd => simp [h, sumContribs_nil]
  | cons e es ih =>
    rw [List.foldl_cons, ih (insertEvent acc e), insertEvent, tlookup_rrfInsert,
      sumContribs_cons, firstIn_cons]
    by_cases hq : did = e.1
    · subst hq
      rw [if_pos rfl, if_pos rfl, if_pos rfl]
      cases h : tlookup acc e.1 with
      | none => simp [h, add_assoc]
      | some sd => simp [h, add_assoc]
    · have hq' : ¬ e.1 = did := fun hh => hq hh.symm
      rw [if_neg hq, if_neg hq', if_neg hq', zero_add]

theorem keys_rrfInsert (acc : List RRFEntry) (did : String) (c : ℚ) (d : Document) :
    (rrfInsert acc did c d).map (fun e => e.1) =
      if did ∈ acc.map (fun e => e.1) then acc.map (fun e => e.1)
      else acc.map (fun e => e.1) ++ [did] := by
  induction acc with
  | nil => simp [rrfInsert]
  | cons a rest ih =>
    obtain ⟨k, s, d0⟩ := a
    by_cases h : k = did
    · subst h
      simp [rrfInsert]
    · have h' : ¬ did = k := fun hh => h hh.symm
      simp only [rrfInsert, if_neg h, List.map_cons, List.mem_cons, h', false_or]
      rw [ih]
      split_ifs <;> simp

theorem length_rrfInsert (acc : List RRFEntry) (did : String) (c : ℚ) (d : Document) :
    (rrfInsert acc did c d).length =
      if did ∈ acc.map (fun e => e.1) then acc.length else acc.length + 1 := by
  have h := congrArg List.length (keys_rrfInsert acc did c d)
  rw [List.length_map] at h
  rw [h]
  split_ifs <;> simp

theorem mem_keys_rrfInsert (acc : List RRFEntry) (did : String) (c : ℚ) (d : Document) :
    did ∈ (rrfInsert acc did c d).map (fun e => e.1) := by
  rw [keys_rrfInsert]
  split_ifs with h
  · exact h
  · simp

theorem keys_subset_rrfInsert (acc : List RRFEntry) (did : String) (c : ℚ) (d : Document)
    (q : String) (hq : q ∈ acc.map (fun e => e.1)) :
    q ∈ (rrfInsert acc did c d).map (fun e => e.1) := by
  rw [keys_rrfInsert]
  split_ifs <;> simp [hq]

theorem nodup_keys_foldl (es : List RRFEntry) (acc : List RRFEntry)
    (h : (acc.map (fun e => e.1)).Nodup) :
    (((es.foldl insertEvent acc)).map (fun e => e.1)).Nodup := by
  induction es generalizing acc with
  | nil => exact h
  | cons e es ih =>
    rw [List.foldl_cons]
    apply ih
    rw [insertEvent, keys_rrfInsert]
    split_ifs with hmem
    · exact h
    · simp [List.nodup_append, h, hmem]

theorem tlookup_of_mem (t : List RRFEntry) (e : RRFEntry) (he : e ∈ t)
    (hnd : (t.map (fun x => x.1)).Nodup) : tlookup t e.1 = some e.2 := by
  induction t with
  | nil => cases he
  | cons a rest ih =>
    rw [List.map_cons, List.nodup_cons] at hnd
    rcases List.mem_cons.mp he with rfl | hmem
    · simp [tlookup_cons]
    · have ha : ¬ a.1 = e.1 := by
        intro hh
        exact hnd.1 (hh ▸ List.mem_map_of_mem (fun x => x.1) hmem)
      rw [tlookup_cons, if_neg ha]
      exact ih hmem hnd.2

theorem length_insertEvent_le (acc : List RRFEntry) (e : RRFEntry) :
    (insertEvent acc e).length ≤ acc.length + 1 := by
  rw [insertEvent, length_rrfInsert]
  split_ifs <;> omega

theorem length_foldl_le (es : List RRFEntry) (acc : List RRFEntry) :
    (es.foldl insertEvent acc).length ≤ acc.length + es.length := by
  induction es generalizing acc with
  | nil => simp
  | cons e es ih =>
    rw [List.foldl_cons]
    calc (es.foldl insertEvent (insertEvent acc e)).length
        ≤ (insertEvent acc e).length + es.length := ih _
      _ ≤ (acc.length + 1) + es.length := by
          have := length_insertEvent_le acc e
          omega
      _ = acc.length + (e :: es).length := by simp only [List.length_cons]; omega

theorem length_foldl_lt_of_mem (es : List RRFEntry) (acc : List RRFEntry)
    (hx : ∃ e ∈ es, e.1 ∈ acc.map (fun x => x.1)) :
    (es.foldl insertEvent acc).length < acc.length + es.length := by
  induction es generalizing acc with
  | nil =>
    rcases hx with ⟨e, he, _⟩
    cases he
  | cons e es ih =>
    rw [List.foldl_cons]
    rcases hx with ⟨f, hf, hkey⟩
    rcases List.mem_cons.mp hf with rfl | hmem
    · have hlen : (insertEvent acc f).length = acc.length := by
        rw [insertEvent, length_rrfInsert, if_pos hkey]
      calc (es.foldl insertEvent (insertEvent acc f)).length
          ≤ (insertEvent acc f).length + es.length := length_foldl_le es _
        _ = acc.length + es.length := by rw [hlen]
        _ < acc.length + (f :: es).length := by simp only [List.length_cons]; omega
    · have hkey' : f.1 ∈ (insertEvent acc e).map (fun x => x.1) := by
        rw [insertEvent]
        exact keys_subset_rrfInsert acc e.1 e.2.1 e.2.2 f.1 hkey
      calc (es.foldl insertEvent (insertEvent acc e)).length
          < (insertEvent acc e).length + es.length := ih _ ⟨f, hmem, hkey'⟩
        _ ≤ (acc.length + 1) + es.length := by
            have := length_insertEvent_le acc e
            omega
        _ = acc.length + (e :: es).length := by simp only [List.length_cons]; omega

theorem length_foldl_lt_of_dup (es : List RRFEntry) (acc : List RRFEntry)
    (hdup : ¬ (es.map (fun e => e.1)).Nodup) :
    (es.foldl insertEvent acc).length < acc.length + es.length := by
  induction es generalizing acc with
  | nil => simp at hdup
  | cons e es ih =>
    rw [List.foldl_cons]
    by_cases hmem : e.1 ∈ es.map (fun x => x.1)
    · rcases List.mem_map.mp hmem with ⟨f, hf, hkey⟩
      have hkey' : f.1 ∈ (insertEvent acc e).map (fun x => x.1) := by
        rw [insertEvent]
        have := mem_keys_rrfInsert acc e.1 e.2.1 e.2.2
        rw [hkey]
        exact this
      calc (es.foldl insertEvent (insertEvent acc e)).length
          < (insertEvent acc e).length + es.length :=
            length_foldl_lt_of_mem es _ ⟨f, hf, hkey'⟩
        _ ≤ (acc.length + 1) + es.length := by
            have := length_insertEvent_le acc e
            omega
        _ = acc.length + (e :: es).length := by simp only [List.length_cons]; omega
    · have hnd : ¬ (es.map (fun x => x.1)).Nodup := by
        intro hh
        exact hdup (by rw [List.map_cons, List.nodup_cons]; exact ⟨hmem, hh⟩)
      calc (es.foldl insertEvent (insertEvent acc e)).length
          < (insertEvent acc e).length + es.length := ih _ hnd
        _ ≤ (acc.length + 1) + es.length := by
            have := length_insertEvent_le acc e
            omega
        _ = acc.length + (e :: es).length := by simp only [List.length_cons]; omega

theorem foldl_rrfStep_eq (hsh : String → String) (kpl : Nat)
    (results : List (List Document)) (acc : List RRFEntry) :
    results.foldl (rrfStep hsh kpl) acc =
      (results.flatMap (listEvents hsh kpl)).foldl insertEvent acc := by
  induction results generalizing acc with
  | nil => rfl
  | cons docs rest ih =>
    rw [List.foldl_cons, List.flatMap_cons, List.foldl_append, ih]
    rfl

theorem rrfTable_eq_foldl (hsh : String → String) (results : List (List Document))
    (kpl : Nat) :
    rrfTable hsh results kpl = (allEvents hsh results kpl).foldl insertEvent [] :=
  foldl_rrfStep_eq hsh kpl results []

theorem rankFrom_length (r : Nat) (l : List Document) :
    (rankFrom r l).length = l.length := by
  induction l generalizing r with
  | nil => rfl
  | cons d ds ih => simp [rankFrom, ih]

theorem listEvents_id (hsh : String → String) (kpl : Nat) (docs : List Document)
    (e : RRFEntry) (he : e ∈ listEvents hsh kpl docs) :
    e.1 = stable_doc_id hsh e.2.2 := by
  rcases List.mem_map.mp he with ⟨p, _, rfl⟩
  rfl

theorem allEvents_id (hsh : String → String) (results : List (List Document))
    (kpl : Nat) (e : RRFEntry) (he : e ∈ allEvents hsh results kpl) :
    e.1 = stable_doc_id hsh e.2.2 := by
  rcases List.mem_flatMap.mp he with ⟨docs, _, hmem⟩
  exact listEvents_id hsh kpl docs e hmem

theorem allEvents_length_le (hsh : String → String) (kpl : Nat)
    (results : List (List Document)) :
    (allEvents hsh results kpl).length ≤ (results.map List.length).sum := by
  induction results with
  | nil => simp [allEvents]
  | cons docs rest ih =>
    rw [allEvents, List.flatMap_cons, List.length_append, List.map_cons, List.sum_cons]
    have h1 : (listEvents hsh kpl docs).length ≤ docs.length := by
      rw [listEvents, List.length_map, rankFrom_length, List.length_take]
      exact Nat.min_le_right _ _
    exact Nat.add_le_add h1 ih

theorem rankFrom_mem (d : Document) (l : List Document) :
    ∀ r : Nat, d ∈ l → ∃ n : Nat, (n, d) ∈ rankFrom r l := by
  induction l with
  | nil => intro r h; cases h
  | cons x xs ih =>
    intro r h
    rcases List.mem_cons.mp h with rfl | hm
    · exact ⟨r, List.mem_cons_self _ _⟩
    · rcases ih (r + 1) hm with ⟨n, hn⟩
      exact ⟨n, List.mem_cons_of_mem _ hn⟩

theorem listEvents_mem (hsh : String → String) (kpl : Nat) (docs : List Document)
    (d : Document) (hd : d ∈ docs.take kpl) :
    ∃ c : ℚ, (stable_doc_id hsh d, c, d) ∈ listEvents hsh kpl docs := by
  rcases rankFrom_mem d (docs.take kpl) 1 hd with ⟨n, hn⟩
  exact ⟨rrfContrib n, List.mem_map_of_mem _ hn⟩

theorem overlap_ids_dup (hsh : String → String) (kpl : Nat)
    (results : List (List Document)) (i j : Fin results.length)
    (hij : (i : Nat) < (j : Nat)) (d1 : Document)
    (h1 : d1 ∈ (results.get i).take kpl) (d2 : Document)
    (h2 : d2 ∈ (results.get j).take kpl)
    (hid : stable_doc_id hsh d1 = stable_doc_id hsh d2) :
    ¬ ((allEvents hsh results kpl).map (fun e => e.1)).Nodup := by
  intro hnd
  have hmap : (allEvents hsh results kpl).map (fun e => e.1) =
      results.flatMap (fun docs => (listEvents hsh kpl docs).map (fun e => e.1)) := by
    rw [allEvents, List.map_flatMap]
  rw [hmap] at hnd
  have hpair := (List.nodup_flatMap.mp hnd).2
  have hdisj := List.pairwise_iff_getElem.mp hpair i j i.isLt j.isLt hij
  rcases listEvents_mem hsh kpl (results.get i) d1 h1 with ⟨c1, he1⟩
  rcases listEvents_mem hsh kpl (results.get j) d2 h2 with ⟨c2, he2⟩
  have hm1 : stable_doc_id hsh d1 ∈
      (listEvents hsh kpl (results.get i)).map (fun e => e.1) :=
    List.mem_map.mpr ⟨_, he1, rfl⟩
  have hm2 : stable_doc_id hsh d1 ∈
      (listEvents hsh kpl (results.get j)).map (fun e => e.1) := by
    rw [hid]
    exact List.mem_map.mpr ⟨_, he2, rfl⟩
  exact hdisj hm1 hm2

theorem rrfTable_entry (hsh : String → String) (results : List (List Document))
    (kpl : Nat) (e : RRFEntry) (he : e ∈ rrfTable hsh results kpl) :
    e.1 = stable_doc_id hsh e.2.2
    ∧ e.2.1 = accScore hsh results kpl e.1
    ∧ firstDocFor hsh results kpl e.1 = some e.2.2 := by
  have hnd : ((rrfTable hsh results kpl).map (fun x => x.1)).Nodup := by
    rw [rrfTable_eq_foldl]
    exact nodup_keys_foldl _ [] (by simp)
  have hlook : tlookup (rrfTable hsh results kpl) e.1 = some e.2 :=
    tlookup_of_mem _ e he hnd
  rw [rrfTable_eq_foldl, tlookup_foldl] at hlook
  simp only [tlookup_nil] at hlook
  cases hfi : firstIn (allEvents hsh results kpl) e.1 with
  | none =>
    rw [hfi] at hlook
    simp at hlook
  | some d0 =>
    rw [hfi] at hlook
    have hpair : sumContribs (allEvents hsh results kpl) e.1 = e.2.1 ∧ d0 = e.2.2 := by
      have h1 := congrArg (fun o => Option.map Prod.fst o) hlook
      have h2 := congrArg (fun o => Option.map Prod.snd o) hlook
      simp at h1 h2
      exact ⟨h1, h2⟩
    have hid : e.1 = stable_doc_id hsh e.2.2 := by
      rw [firstIn] at hfi
      cases hf : (allEvents hsh results kpl).find? (fun x => x.1 == e.1) with
      | none =>
        rw [hf] at hfi
        simp at hfi
      | some ev =>
        rw [hf] at hfi
        simp only [Option.map] at hfi
        injection hfi with hfi
        have hev_mem := List.mem_of_find?_eq_some hf
        have hev_id : ev.1 = e.1 := by
          have := List.find?_some hf
          simpa using this
        have hwf := allEvents_id hsh results kpl ev hev_mem
        rw [← hev_id, hwf, hfi, hpair.2]
    refine ⟨hid, ?_, ?_⟩
    · rw [accScore]
      exact hpair.1.symm
    · rw [firstDocFor, hfi, hpair.2]

/-- C1: `_rrf_merge` gives every document at 1-based rank `r` within the
top `k_per_query` of a list the contribution `1/(60+r)`; documents with
the same stable identity are merged (score = sum of contributions,
content = first-encountered occurrence in variant order); the output is
ordered by accumulated score descending, has length at most `k`, and is
strictly shorter than the sum of the input list lengths whenever an
identity appears in two different lists. -/
theorem rrf_merge_spec (hsh : String → String) (results : List (List Document))
    (k kpl : Nat) : RRFMergeClaim hsh results k kpl := by
  have hperm : (List.mergeSort (rrfTable hsh results kpl)
      (fun a b => decide (b.2.1 ≤ a.2.1))).Perm (rrfTable hsh results kpl) :=
    List.mergeSort_perm _ _
  have hout : rrf_merge hsh results k kpl =
      ((List.mergeSort (rrfTable hsh results kpl)
        (fun a b => decide (b.2.1 ≤ a.2.1))).take k).map (fun e => e.2.2) := rfl
  have hmem_table : ∀ e : RRFEntry, e ∈ (List.mergeSort (rrfTable hsh results kpl)
      (fun a b => decide (b.2.1 ≤ a.2.1))).take k → e ∈ rrfTable hsh results kpl := by
    intro e hetake
    exact hperm.mem_iff.mp (List.mem_of_mem_take hetake)
  refine ⟨?_, ?_, ?_, ?_, ?_⟩
  · rw [hout, List.length_map, List.length_take]
    exact Nat.min_le_left _ _
  · intro d hd
    rw [hout] at hd
    rcases List.mem_map.mp hd with ⟨e, he, rfl⟩
    obtain ⟨hid, _, hfirst⟩ := rrfTable_entry hsh results kpl e (hmem_table e he)
    rw [← hid]
    exact hfirst
  · intro e he
    exact (rrfTable_entry hsh results kpl e he).2.1
  · have hsorted : (List.mergeSort (rrfTable hsh results kpl)
        (fun a b => decide (b.2.1 ≤ a.2.1))).Pairwise
        (fun a b => decide (b.2.1 ≤ a.2.1) = true) := by
      apply List.sorted_mergeSort
      · intro a b c hab hbc
        simp only [decide_eq_true_eq] at hab hbc ⊢
        exact le_trans hbc hab
      · intro a b
        rcases le_total a.2.1 b.2.1 with h | h <;> simp [h]
    have htake : ((List.mergeSort (rrfTable hsh results kpl)
        (fun a b => decide (b.2.1 ≤ a.2.1))).take k).Pairwise
        (fun a b => decide (b.2.1 ≤ a.2.1) = true) :=
      List.Pairwise.sublist (List.take_sublist k _) hsorted
    rw [hout, List.pairwise_map]
    apply List.Pairwise.imp_of_mem ?_ htake
    intro a b ha hb hle
    obtain ⟨hida, hsca, _⟩ := rrfTable_entry hsh results kpl a (hmem_table a ha)
    obtain ⟨hidb, hscb, _⟩ := rrfTable_entry hsh results kpl b (hmem_table b hb)
    simp only [decide_eq_true_eq] at hle
    rw [← hida, ← hidb, ← hsca, ← hscb]
    exact hle
  · rintro ⟨i, j, hij, d1, h1, d2, h2, hid⟩
    have hdup : ¬ ((allEvents hsh results kpl).map (fun e => e.1)).Nodup := by
      rcases Nat.lt_trichotomy (i : Nat) (j : Nat) with hlt | heq | hgt
      · exact overlap_ids_dup hsh kpl results i j hlt d1 h1 d2 h2 hid
      · exact absurd (Fin.ext heq) hij
      · exact overlap_ids_dup hsh kpl results j i hgt d2 h2 d1 h1 hid.symm
    have htab : (rrfTable hsh results kpl).length <
        (allEvents hsh results kpl).length := by
      have h := length_foldl_lt_of_dup (allEvents hsh results kpl) [] hdup
      rw [rrfTable_eq_foldl]
      simpa using h
    have hev := allEvents_length_le hsh kpl results
    have hout_len : (rrf_merge hsh results k kpl).length ≤
        (rrfTable hsh results kpl).length := by
      rw [hout, List.length_map, List.length_take]
      have hpl := hperm.length_eq
      omega
    omega

/-- Witness for C1: two variant lists returning the same document (same
`source`/`start_index`), fused with `k = 5`, `k_per_query = 5`; the
overlap hypothesis is discharged concretely, giving an output strictly
shorter than the total input length. -/
theorem rrf_merge_spec_witness :
    RRFMergeClaim (fun s => s)
      [[Document.mk (some "a") (some 0) "x"], [Document.mk (some "a") (some 0) "x"]] 5 5
    ∧ (rrf_merge (fun s => s)
        [[Document.mk (some "a") (some 0) "x"],
         [Document.mk (some "a") (some 0) "x"]] 5 5).length <
      (([[Document.mk (some "a") (some 0) "x"],
         [Document.mk (some "a") (some 0) "x"]] : List (List Document)).map
        List.length).sum := by
  refine ⟨rrf_merge_spec (fun s => s) _ 5 5, ?_⟩
  apply (rrf_merge_spec (fun s => s)
    [[Document.mk (some "a") (some 0) "x"], [Document.mk (some "a") (some 0) "x"]]
    5 5).2.2.2.2
  refine ⟨⟨0, by norm_num⟩, ⟨1, by norm_num⟩, by decide,
    Document.mk (some "a") (some 0) "x", by simp,
    Document.mk (some "a") (some 0) "x", by simp, rfl⟩
